import Mathlib

/-!
Verification of the Cafe POS core (`src/pos.jsx`).

This file gives a shallow embedding, in Lean 4, of the order/table state
machine, the checkout transaction and the sales aggregator of the POS
source, and proves the specified properties about them.

Modelling conventions:
* JS numbers used as money are modelled as rationals (`ℚ`); quantities and
  deltas are integers (`Int`).
* A Firestore collection is a list of `(docId, fields)` pairs; `updateDoc`
  maps over the matching document (a missing document makes `updateDoc`
  fail, which the source catches — net effect: no change), `setDoc` with
  `merge: true` overwrites exactly the supplied fields of an existing
  document and creates the document otherwise, and `addDoc` appends.
* A JS `Date` is modelled by its UTC calendar components (`JsDate`);
  `serverTimestamp()` is an explicit `now : JsDate` argument.
* `String.prototype.localeCompare` is modelled as the code-point
  lexicographic comparison `String.le`.
-/

namespace CafePOS

/-- Table status, `'Open'` / `'Closed'` strings in the source. -/
inductive Status
  | Open
  | Closed
deriving DecidableEq

/-- One entry of `MENU_ITEMS`: `{ name, price, id }`. -/
structure MenuItem where
  id : String
  name : String
  price : ℚ
deriving DecidableEq

/-- One line of a table order: a menu item spread together with a
`quantity` field (`{ ...item, quantity }` in the source). -/
structure OrderLine where
  id : String
  name : String
  price : ℚ
  quantity : Int
deriving DecidableEq

/-- `tableTotal` in `OrderModal`:
`currentOrder.reduce((sum, item) => sum + item.price * item.quantity, 0)`. -/
def tableTotal (currentOrder : List OrderLine) : ℚ :=
  currentOrder.foldl (fun sum item => sum + item.price * (item.quantity : ℚ)) 0

/-- `updateItemQuantity(item, delta)` in `OrderModal`, acting on the
previous cart `prevOrder`. -/
def updateItemQuantity (prevOrder : List OrderLine) (item : MenuItem) (delta : Int) :
    List OrderLine :=
  match prevOrder.find? (fun i => i.id == item.id) with
  | some existingItem =>
    let newQuantity := existingItem.quantity + delta
    if newQuantity ≤ 0 then
      prevOrder.filter (fun i => i.id != item.id)
    else
      prevOrder.map (fun i =>
        if i.id == item.id then { i with quantity := newQuantity } else i)
  | none =>
    if 0 < delta then
      prevOrder ++ [{ id := item.id, name := item.name, price := item.price, quantity := 1 }]
    else
      prevOrder

/-- The data-model invariant of §3 of the spec: order lines are unique by
`id`. -/
def nodupIds (order : List OrderLine) : Prop :=
  (order.map OrderLine.id).Nodup

instance (order : List OrderLine) : Decidable (nodupIds order) := by
  unfold nodupIds; infer_instance

/-- The `Tea` entry of `MENU_ITEMS` (`{ name: 'Tea', price: 20.00, id: 'b7' }`). -/
def menuTea : MenuItem := { id := "b7", name := "Tea", price := 20 }

/-- The `Hot Coffee` entry of `MENU_ITEMS`
(`{ name: 'Hot Coffee', price: 30.00, id: 'b6' }`). -/
def menuHotCoffee : MenuItem := { id := "b6", name := "Hot Coffee", price := 30 }

/-- An order line carrying one Tea. -/
def teaLine : OrderLine := { id := "b7", name := "Tea", price := 20, quantity := 1 }

/-- An order line carrying two Hot Coffees. -/
def coffeeLine : OrderLine := { id := "b6", name := "Hot Coffee", price := 30, quantity := 2 }

/-- A JS `Date` observed through its UTC calendar components; stands for
the resolved value of a `new Date(...)` / `serverTimestamp()` in the
source (only the calendar date is ever consumed). -/
structure JsDate where
  year : Nat
  month : Nat
  day : Nat
deriving DecidableEq

/-- Two-digit zero padding, as produced inside `toISOString()`. -/
def pad2 (n : Nat) : String :=
  if n < 10 then "0" ++ toString n else toString n

/-- Four-digit zero padding of the year, as produced inside `toISOString()`. -/
def pad4 (n : Nat) : String :=
  if n < 10 then "000" ++ toString n
  else if n < 100 then "00" ++ toString n
  else if n < 1000 then "0" ++ toString n
  else toString n

/-- `date.toISOString().split('T')[0]`: the `YYYY-MM-DD` calendar-date string. -/
def isoDate (d : JsDate) : String :=
  pad4 d.year ++ "-" ++ pad2 d.month ++ "-" ++ pad2 d.day

/-- `date.toISOString().substring(0, 7)`: the `YYYY-MM` year-month string. -/
def isoYearMonth (d : JsDate) : String :=
  pad4 d.year ++ "-" ++ pad2 d.month

/-- Short month names used by `Intl.DateTimeFormat('en-US', { month: 'short' })`. -/
def monthShort (m : Nat) : String :=
  match m with
  | 1 => "Jan" | 2 => "Feb" | 3 => "Mar" | 4 => "Apr"
  | 5 => "May" | 6 => "Jun" | 7 => "Jul" | 8 => "Aug"
  | 9 => "Sep" | 10 => "Oct" | 11 => "Nov" | 12 => "Dec"
  | _ => ""

/-- `Intl.DateTimeFormat('en-US', { year: 'numeric', month: 'short' }).format(d)`:
a label of the shape `Jan 2024`. -/
def monthlyLabel (d : JsDate) : String :=
  monthShort d.month ++ " " ++ toString d.year

/-- A table document, `{ tableId, status, order, total, lastUpdate }`. -/
structure Table where
  tableId : Nat
  status : Status
  order : List OrderLine
  total : ℚ
  lastUpdate : Option JsDate
deriving DecidableEq

/-- A sale document, `{ tableId, items, total, timestamp, date }`; the
`timestamp` is optional because a snapshot may deliver a document whose
server timestamp is still pending (the aggregator guards on it). -/
structure Sale where
  tableId : Nat
  items : List OrderLine
  total : ℚ
  timestamp : Option JsDate
  date : String
deriving DecidableEq

/-- The client's view of the two Firestore collections: table documents
keyed by their document id, and the sale documents. -/
structure AppState where
  tables : List (String × Table)
  sales : List Sale
deriving DecidableEq

/-- `updateDoc(doc(tables, key), fields)`: rewrite the fields of the
document whose id is `key`; a missing document leaves the collection
unchanged (the thrown error is caught and only logged in the source). -/
def updateTableDoc (tables : List (String × Table)) (key : String) (f : Table → Table) :
    List (String × Table) :=
  tables.map (fun kt => if kt.1 == key then (kt.1, f kt.2) else kt)

/-- `setDoc(tableRef, { tableId: i, status: 'Closed', order: [], total: 0 },
{ merge: true })`: with `merge: true`, Firestore overwrites exactly the
supplied fields of an existing document (here everything but `lastUpdate`)
and creates the document when it does not exist. -/
def setDocMergeInit (tables : List (String × Table)) (key : String) (i : Nat) :
    List (String × Table) :=
  if tables.any (fun kt => kt.1 == key) then
    tables.map (fun kt =>
      if kt.1 == key then
        (kt.1, { kt.2 with tableId := i, status := Status.Closed, order := [], total := 0 })
      else kt)
  else
    tables ++ [(key, { tableId := i, status := Status.Closed, order := [], total := 0,
                       lastUpdate := none })]

/-- `initTables` in `OrdersView`: `for (let i = 1; i <= 10; i++)` do the
merge-`setDoc` on document `String(i)`. -/
def initTables (tables : List (String × Table)) : List (String × Table) :=
  (List.range 10).foldl (fun ts n => setDocMergeInit ts (toString (n + 1)) (n + 1)) tables

/-- The sale document appended by `handleCheckout` in `App`:
`{ tableId, items: orderItems, total, timestamp: serverTimestamp(),
date: new Date().toISOString().split('T')[0] }`. -/
def mkSale (tableId : Nat) (orderItems : List OrderLine) (total : ℚ) (now : JsDate) : Sale :=
  { tableId := tableId, items := orderItems, total := total,
    timestamp := some now, date := isoDate now }

/-- The two remote writes issued by `handleCheckout` in `App`, in program
order: first `addDoc` on the sales collection, then `updateDoc` on the
table document. -/
inductive WriteOp
  | appendSale (s : Sale)
  | resetTable (tableId : Nat)
deriving DecidableEq

/-- Effect of a single checkout write on the remote state. -/
def applyWrite (st : AppState) : WriteOp → AppState
  | WriteOp.appendSale s => { st with sales := st.sales ++ [s] }
  | WriteOp.resetTable tableId =>
      { st with tables := (updateTableDoc st.tables (toString tableId)
          (fun t => { t with order := [], total := 0, status := Status.Closed })) }

/-- Apply a sequence of checkout writes in order. -/
def applyWrites (st : AppState) (ws : List WriteOp) : AppState :=
  ws.foldl applyWrite st

/-- The write sequence of `handleCheckout` in `App`: record the sale,
then clear the table — in that order. -/
def checkoutWrites (tableId : Nat) (orderItems : List OrderLine) (total : ℚ)
    (now : JsDate) : List WriteOp :=
  [WriteOp.appendSale (mkSale tableId orderItems total now), WriteOp.resetTable tableId]

/-- `handleCheckout` in `App`, run to completion. -/
def handleCheckoutApp (st : AppState) (tableId : Nat) (orderItems : List OrderLine)
    (total : ℚ) (now : JsDate) : AppState :=
  applyWrites st (checkoutWrites tableId orderItems total now)

/-- Outcome reported by the modal's checkout handler. -/
inductive CheckoutOutcome
  | ok
  | rejected
deriving DecidableEq

/-- `handleCheckout` in `OrderModal`: reject an empty cart with the
`Cannot checkout an empty order.` message before any write, otherwise
call `onCheckout(table.tableId, currentOrder, tableTotal)` with the
recomputed total. -/
def handleCheckoutModal (st : AppState) (tableId : Nat) (currentOrder : List OrderLine)
    (now : JsDate) : CheckoutOutcome × AppState :=
  if currentOrder.length = 0 then
    (CheckoutOutcome.rejected, st)
  else
    (CheckoutOutcome.ok, handleCheckoutApp st tableId currentOrder (tableTotal currentOrder) now)

/-- `saveOrder` in `App`: `updateDoc` of `order`, `total`, `status`
(`Open` iff the order has lines) and `lastUpdate` on the table document. -/
def saveOrder (st : AppState) (tableId : Nat) (orderItems : List OrderLine) (total : ℚ)
    (now : JsDate) : AppState :=
  { st with tables := (updateTableDoc st.tables (toString tableId)
      (fun t => { t with
          order := orderItems,
          total := total,
          status := if 0 < orderItems.length then Status.Open else Status.Closed,
          lastUpdate := some now })) }

/-- `handleSave` in `OrderModal`: `onSave(table.tableId, currentOrder,
tableTotal)` with the recomputed total. -/
def handleSave (st : AppState) (tableId : Nat) (currentOrder : List OrderLine)
    (now : JsDate) : AppState :=
  saveOrder st tableId currentOrder (tableTotal currentOrder) now

/-- The `reportType` state of `ReportsView`: `'Daily' | 'Monthly' | 'Yearly'`. -/
inductive ReportType
  | Daily
  | Monthly
  | Yearly
deriving DecidableEq

/-- The bucket `key` computed in `aggregatedData` for a sale date:
`toISOString().split('T')[0]`, `toISOString().substring(0, 7)`, or
`getFullYear().toString()` depending on the report type. -/
def bucketKey (rt : ReportType) (d : JsDate) : String :=
  match rt with
  | ReportType.Daily => isoDate d
  | ReportType.Monthly => isoYearMonth d
  | ReportType.Yearly => toString d.year

/-- The human `label` computed in `aggregatedData` alongside the key:
equal to the key for Daily and Yearly, a localized `Mon YYYY` form for
Monthly. -/
def bucketLabel (rt : ReportType) (d : JsDate) : String :=
  match rt with
  | ReportType.Daily => isoDate d
  | ReportType.Monthly => monthlyLabel d
  | ReportType.Yearly => toString d.year

/-- One value of the `data` accumulator object: `{ name: label, sales }`. -/
structure RowVal where
  name : String
  sales : ℚ
deriving DecidableEq

/-- Effect of one loop iteration of `aggregatedData` on the accumulator
object `data`, viewed as an insertion-ordered association list (JS string
keys preserve insertion order): `if (!data[key]) data[key] = { name:
label, sales: 0 }; data[key].sales += sale.total`. -/
def addSale : List (String × RowVal) → String → String → ℚ → List (String × RowVal)
  | [], key, label, total => [(key, { name := label, sales := 0 + total })]
  | (k, v) :: rest, key, label, total =>
    if k == key then (k, { v with sales := v.sales + total }) :: rest
    else (k, v) :: addSale rest key label total

/-- The body of the `salesData.forEach` loop of `aggregatedData`: derive
the sale's date from `timestamp` when present and from `today` otherwise,
then accumulate into the bucket. -/
def aggStep (rt : ReportType) (today : JsDate) (data : List (String × RowVal))
    (sale : Sale) : List (String × RowVal) :=
  addSale data (bucketKey rt (sale.timestamp.getD today))
    (bucketLabel rt (sale.timestamp.getD today)) sale.total

/-- The fully accumulated `data` object of `aggregatedData`: one pass over
`salesData` starting from the empty object. -/
def buildData (salesData : List Sale) (rt : ReportType) (today : JsDate) :
    List (String × RowVal) :=
  salesData.foldl (aggStep rt today) []

/-- The row comparison of `aggregatedData`:
`(a, b) => a.name.localeCompare(b.name)`, with `localeCompare` modelled as
code-point lexicographic string comparison. -/
def rowLE (a b : RowVal) : Bool :=
  decide (a.name ≤ b.name)

/-- `aggregatedData` in `ReportsView`: group the sales into buckets, take
`Object.values`, and sort ascending by `name`. -/
def aggregatedData (salesData : List Sale) (rt : ReportType) (today : JsDate) :
    List RowVal :=
  ((buildData salesData rt today).map Prod.snd).mergeSort rowLE

/-- `totalSales` in `ReportsView`:
`aggregatedData.reduce((sum, item) => sum + item.sales, 0)`. -/
def totalSales (rows : List RowVal) : ℚ :=
  rows.foldl (fun sum item => sum + item.sales) 0

/-- The sum of the totals of the sales landing in bucket `k` — the
reference value the aggregator's rows are checked against. -/
def bucketTotal (rt : ReportType) (today : JsDate) (salesData : List Sale) (k : String) : ℚ :=
  ((salesData.filter (fun s => bucketKey rt (s.timestamp.getD today) == k)).map Sale.total).sum

/-- A fixed `serverTimestamp()` value used in concrete scenarios. -/
def exDate : JsDate := { year := 2024, month := 1, day := 5 }

/-- A second, later `serverTimestamp()` value used for checkout retries. -/
def exDate2 : JsDate := { year := 2024, month := 1, day := 6 }

/-- Table 3 with one Tea on its open order. -/
def openTable3 : Table :=
  { tableId := 3, status := Status.Open, order := [teaLine], total := 20, lastUpdate := none }

/-- A concrete remote state: table 3 is open with one Tea and no sales
are recorded yet. -/
def exState : AppState := { tables := [("3", openTable3)], sales := [] }

/-- The three sales of the aggregation example of §8 of the spec:
totals 50, 30 and 20 on 2024-01-05, 2024-01-07 and 2024-02-01. -/
def exSales : List Sale :=
  [ { tableId := 1, items := [], total := 50,
      timestamp := some { year := 2024, month := 1, day := 5 }, date := "2024-01-05" },
    { tableId := 2, items := [], total := 30,
      timestamp := some { year := 2024, month := 1, day := 7 }, date := "2024-01-07" },
    { tableId := 3, items := [], total := 20,
      timestamp := some { year := 2024, month := 2, day := 1 }, date := "2024-02-01" } ]

/-- The current date used by the aggregation example. -/
def exToday : JsDate := { year := 2024, month := 3, day := 15 }

/-! Theorems. -/

/-- When line ids are unique, `find?` on an id returns the one line
carrying it. -/
theorem find_id_eq_of_nodupIds (order : List OrderLine) (idv : String) (l : OrderLine)
    (h : nodupIds order) (hl : l ∈ order) (hid : l.id = idv) :
    order.find? (fun i => i.id == idv) = some l := by
  induction order with
  | nil => cases hl
  | cons a rest ih =>
    rw [nodupIds, List.map_cons, List.nodup_cons] at h
    rcases List.mem_cons.mp hl with rfl | hmem
    · exact List.find?_cons_of_pos _ (by simp [hid])
    · have hne : a.id ≠ idv := by
        intro heq
        have hmm : l.id ∈ rest.map OrderLine.id := List.mem_map_of_mem OrderLine.id hmem
        rw [hid, ← heq] at hmm
        exact h.1 hmm
      rw [List.find?_cons_of_neg _ (by simp [hne])]
      exact ih h.2 hmem

/-- C6: `adjustQuantity` on an order with unique line ids: an existing
line gets quantity `old + delta` and is removed entirely when that is
`≤ 0`; an absent item with positive delta is added with quantity 1
regardless of the delta's magnitude; an absent item with `delta ≤ 0` is a
no-op. -/
theorem claim_C6_adjust_quantity (order : List OrderLine) (item : MenuItem) (delta : Int)
    (h : nodupIds order) :
    (∀ l ∈ order, l.id = item.id →
      (l.quantity + delta ≤ 0 →
        updateItemQuantity order item delta = order.filter (fun i => i.id != item.id)) ∧
      (0 < l.quantity + delta →
        updateItemQuantity order item delta =
          order.map (fun i =>
            if i.id == item.id then { i with quantity := l.quantity + delta } else i))) ∧
    ((∀ l ∈ order, l.id ≠ item.id) →
      (0 < delta →
        updateItemQuantity order item delta =
          order ++ [{ id := item.id, name := item.name, price := item.price, quantity := 1 }]) ∧
      (delta ≤ 0 → updateItemQuantity order item delta = order)) := by
  constructor
  · intro l hl hid
    have hf := find_id_eq_of_nodupIds order item.id l h hl hid
    constructor
    · intro hle
      simp only [updateItemQuantity, hf]
      rw [if_pos hle]
    · intro hlt
      simp only [updateItemQuantity, hf]
      rw [if_neg (not_le.mpr hlt)]
  · intro hnone
    have hf : order.find? (fun i => i.id == item.id) = none :=
      List.find?_eq_none.mpr (fun x hx => by simp [hnone x hx])
    constructor
    · intro hd
      simp only [updateItemQuantity, hf]
      rw [if_pos hd]
    · intro hd
      simp only [updateItemQuantity, hf]
      rw [if_neg (not_lt.mpr hd)]

/-- Witness for C6: removing the single Tea from a Tea-and-Coffee cart
deletes the Tea line entirely. -/
theorem claim_C6_adjust_quantity_witness :
    updateItemQuantity [teaLine, coffeeLine] menuTea (-1) =
      [teaLine, coffeeLine].filter (fun i => i.id != menuTea.id) :=
  ((claim_C6_adjust_quantity [teaLine, coffeeLine] menuTea (-1) (by decide)).1 teaLine
    (List.Mem.head _) rfl).1 (by decide)

/-- Updating one id's quantity leaves the `id` projection of the order
unchanged. -/
theorem map_id_set_quantity (order : List OrderLine) (idv : String) (q : Int) :
    (order.map (fun i => if i.id == idv then { i with quantity := q } else i)).map
        OrderLine.id =
      order.map OrderLine.id := by
  induction order with
  | nil => rfl
  | cons a rest ih =>
    simp only [List.map_cons, ih]
    by_cases ha : a.id = idv
    · simp [ha]
    · simp [ha]

/-- Updating one id's quantity commutes away under the filter that drops
that id. -/
theorem filter_ne_map_set_quantity (order : List OrderLine) (idv : String) (q : Int) :
    (order.map (fun i => if i.id == idv then { i with quantity := q } else i)).filter
        (fun i => i.id != idv) =
      order.filter (fun i => i.id != idv) := by
  induction order with
  | nil => rfl
  | cons a rest ih =>
    by_cases ha : a.id = idv
    · have hfa : (if a.id == idv then ({ a with quantity := q } : OrderLine) else a) =
          { a with quantity := q } := by simp [ha]
      rw [List.map_cons, hfa, List.filter_cons_of_neg (by simp [ha]),
        List.filter_cons_of_neg (by simp [ha]), ih]
    · have hfa : (if a.id == idv then ({ a with quantity := q } : OrderLine) else a) = a := by
        simp [ha]
      rw [List.map_cons, hfa, List.filter_cons_of_pos (by simp [ha]), ih,
        List.filter_cons_of_pos (by simp [ha])]

/-- C10: `adjustQuantity` is frame-preserving: the sublist of lines whose
id differs from the touched item is unchanged (same lines, same relative
order), and uniqueness of line ids is preserved. -/
theorem claim_C10_frame (order : List OrderLine) (item : MenuItem) (delta : Int) :
    (updateItemQuantity order item delta).filter (fun i => i.id != item.id) =
      order.filter (fun i => i.id != item.id) ∧
    (nodupIds order → nodupIds (updateItemQuantity order item delta)) := by
  cases hf : order.find? (fun i => i.id == item.id) with
  | some e =>
    by_cases hq : e.quantity + delta ≤ 0
    · constructor
      · simp only [updateItemQuantity, hf]
        rw [if_pos hq, List.filter_filter]
        simp
      · intro h
        simp only [updateItemQuantity, hf]
        rw [if_pos hq]
        exact List.Nodup.sublist (List.Sublist.map OrderLine.id (List.filter_sublist order)) h
    · constructor
      · simp only [updateItemQuantity, hf]
        rw [if_neg hq]
        exact filter_ne_map_set_quantity order item.id (e.quantity + delta)
      · intro h
        simp only [updateItemQuantity, hf]
        rw [if_neg hq, nodupIds, map_id_set_quantity]
        exact h
  | none =>
    have habs : ∀ l ∈ order, l.id ≠ item.id := by
      intro l hl
      have := List.find?_eq_none.mp hf l hl
      simpa using this
    by_cases hd : 0 < delta
    · constructor
      · simp only [updateItemQuantity, hf]
        rw [if_pos hd, List.filter_append]
        simp
      · intro h
        simp only [updateItemQuantity, hf]
        rw [if_pos hd, nodupIds, List.map_append, List.nodup_append]
        refine ⟨h, by simp, ?_⟩
        intro x hx
        obtain ⟨l, hl, rfl⟩ := List.mem_map.mp hx
        simp only [List.map_cons, List.map_nil, List.mem_singleton]
        exact fun hcon => habs l hl hcon
    · constructor
      · simp only [updateItemQuantity, hf]
        rw [if_neg hd]
      · intro h
        simp only [updateItemQuantity, hf]
        rw [if_neg hd]
        exact h

/-- Witness for C10: adding a Coffee to a Tea-only cart leaves the Tea
line untouched and keeps line ids unique. -/
theorem claim_C10_frame_witness :
    nodupIds (updateItemQuantity [teaLine, coffeeLine] menuTea 1) :=
  (claim_C10_frame [teaLine, coffeeLine] menuTea 1).2 (by decide)

/-- Every table document reachable under the checked-out table's key in an
`updateTableDoc` result carries the rewritten fields. -/
theorem mem_updateTableDoc (tables : List (String × Table)) (key : String)
    (f : Table → Table) (t : Table)
    (ht : (key, t) ∈ updateTableDoc tables key f) :
    ∃ t0, (key, t0) ∈ tables ∧ t = f t0 := by
  obtain ⟨kt, hkt, heq⟩ := List.mem_map.mp ht
  cases hk : (kt.1 == key) with
  | true =>
    rw [hk] at heq
    simp only [if_true] at heq
    have h1 : kt.1 = key := by simpa using hk
    refine ⟨kt.2, ?_, ?_⟩
    · rw [← h1]
      exact hkt
    · rw [Prod.mk.injEq] at heq
      exact heq.2.symm
  | false =>
    rw [hk] at heq
    simp only [Bool.false_eq_true, if_false] at heq
    rw [heq] at hk
    simp at hk

/-- The image of an existing document under `updateTableDoc` on its key. -/
theorem updateTableDoc_mem_of_mem (tables : List (String × Table)) (key : String)
    (f : Table → Table) (t : Table) (ht : (key, t) ∈ tables) :
    (key, f t) ∈ updateTableDoc tables key f := by
  unfold updateTableDoc
  exact List.mem_map.mpr ⟨(key, t), ht, by simp⟩

/-- C1: checking out a non-empty order appends exactly one sale, whose
items and total are the pre-checkout order and its recomputed total, and
resets the table document to `order = [], total = 0, status = Closed`. -/
theorem claim_C1_checkout (st : AppState) (tableId : Nat) (currentOrder : List OrderLine)
    (now : JsDate) (hne : currentOrder ≠ [])
    (hmem : ∃ t, (toString tableId, t) ∈ st.tables) :
    ∃ s st2,
      handleCheckoutModal st tableId currentOrder now = (CheckoutOutcome.ok, st2) ∧
      st2.sales = st.sales ++ [s] ∧
      s.items = currentOrder ∧ s.total = tableTotal currentOrder ∧ s.tableId = tableId ∧
      (∃ t, (toString tableId, t) ∈ st2.tables) ∧
      (∀ t, (toString tableId, t) ∈ st2.tables →
        t.order = [] ∧ t.total = 0 ∧ t.status = Status.Closed) := by
  have hlen : ¬ currentOrder.length = 0 := by simpa using hne
  refine ⟨mkSale tableId currentOrder (tableTotal currentOrder) now,
    handleCheckoutApp st tableId currentOrder (tableTotal currentOrder) now,
    ?_, rfl, rfl, rfl, rfl, ?_, ?_⟩
  · simp [handleCheckoutModal, hlen]
  · obtain ⟨t, ht⟩ := hmem
    refine ⟨{ t with order := [], total := 0, status := Status.Closed }, ?_⟩
    show (toString tableId, _) ∈ updateTableDoc st.tables (toString tableId)
      (fun t => { t with order := [], total := 0, status := Status.Closed })
    exact updateTableDoc_mem_of_mem st.tables (toString tableId) _ t ht
  · intro t ht
    have ht2 : (toString tableId, t) ∈ updateTableDoc st.tables (toString tableId)
        (fun t => { t with order := [], total := 0, status := Status.Closed }) := ht
    obtain ⟨t0, -, rfl⟩ := mem_updateTableDoc st.tables (toString tableId) _ t ht2
    exact ⟨rfl, rfl, rfl⟩

/-- Witness for C1: checking out table 3's one-Tea order from `exState`. -/
theorem claim_C1_checkout_witness :
    ∃ s st2,
      handleCheckoutModal exState 3 [teaLine] exDate = (CheckoutOutcome.ok, st2) ∧
      st2.sales = exState.sales ++ [s] ∧
      s.items = [teaLine] ∧ s.total = tableTotal [teaLine] ∧ s.tableId = 3 ∧
      (∃ t, (toString 3, t) ∈ st2.tables) ∧
      (∀ t, (toString 3, t) ∈ st2.tables →
        t.order = [] ∧ t.total = 0 ∧ t.status = Status.Closed) :=
  claim_C1_checkout exState 3 [teaLine] exDate (by decide)
    ⟨openTable3, List.Mem.head _⟩

/-- C2: a checkout attempt on an order with zero lines is rejected by the
modal before any write: no sale is appended and no table is touched. -/
theorem claim_C2_empty_checkout (st : AppState) (tableId : Nat)
    (currentOrder : List OrderLine) (now : JsDate) (h : currentOrder.length = 0) :
    handleCheckoutModal st tableId currentOrder now = (CheckoutOutcome.rejected, st) ∧
    (handleCheckoutModal st tableId currentOrder now).2.sales = st.sales ∧
    (handleCheckoutModal st tableId currentOrder now).2.tables = st.tables := by
  refine ⟨?_, ?_, ?_⟩ <;> simp [handleCheckoutModal, h]

/-- Witness for C2: the empty cart on table 3 is rejected and `exState`
is untouched. -/
theorem claim_C2_empty_checkout_witness :
    handleCheckoutModal exState 3 [] exDate = (CheckoutOutcome.rejected, exState) :=
  (claim_C2_empty_checkout exState 3 [] exDate rfl).1

/-- C3: the checkout's writes are sale-first: after any non-empty prefix
of the write sequence the sale is already recorded, and a failure before
the second write (the strict prefix of length 1) leaves every table
document untouched. -/
theorem claim_C3_sale_first (st : AppState) (tableId : Nat) (orderItems : List OrderLine)
    (total : ℚ) (now : JsDate) (k : Nat) (hk : 0 < k) :
    (applyWrites st ((checkoutWrites tableId orderItems total now).take k)).sales =
      st.sales ++ [mkSale tableId orderItems total now] ∧
    (k < 2 →
      (applyWrites st ((checkoutWrites tableId orderItems total now).take k)).tables =
        st.tables) := by
  match k with
  | 0 => exact absurd hk (by simp)
  | 1 => exact ⟨rfl, fun _ => rfl⟩
  | (n + 2) =>
    rw [List.take_of_length_le (by simp [checkoutWrites])]
    refine ⟨rfl, fun h2 => absurd h2 (by omega)⟩

/-- Witness for C3: crashing after the first write of table 3's checkout
leaves the sale recorded and the table untouched. -/
theorem claim_C3_sale_first_witness :
    (applyWrites exState ((checkoutWrites 3 [teaLine] 20 exDate).take 1)).sales =
      exState.sales ++ [mkSale 3 [teaLine] 20 exDate] :=
  (claim_C3_sale_first exState 3 [teaLine] 20 exDate 1 (by decide)).1

/-- Summing a list with `foldl` from an offset equals the offset plus the
mapped sum. -/
theorem foldl_add_map_sum {α : Type} (f : α → ℚ) :
    ∀ (l : List α) (a : ℚ), l.foldl (fun s x => s + f x) a = a + (l.map f).sum
  | [], a => by simp
  | x :: xs, a => by
    rw [List.foldl_cons, foldl_add_map_sum f xs (a + f x)]
    simp [add_assoc]

/-- C7: a Save persists the order as given, a total recomputed as
`Σ price × quantity`, and a status that is `Open` iff the order is
non-empty (`Closed` with total `0` when it is empty). -/
theorem claim_C7_save_invariant (st : AppState) (tableId : Nat)
    (currentOrder : List OrderLine) (now : JsDate) :
    tableTotal currentOrder =
      (currentOrder.map (fun l => l.price * (l.quantity : ℚ))).sum ∧
    ∀ t, (toString tableId, t) ∈ (handleSave st tableId currentOrder now).tables →
      t.order = currentOrder ∧
      t.total = tableTotal currentOrder ∧
      (t.status = Status.Open ↔ currentOrder ≠ []) ∧
      (currentOrder = [] → t.status = Status.Closed ∧ t.total = 0) := by
  constructor
  · rw [tableTotal, foldl_add_map_sum, zero_add]
  · intro t ht
    have ht2 : (toString tableId, t) ∈ updateTableDoc st.tables (toString tableId)
        (fun t => { t with
            order := currentOrder,
            total := tableTotal currentOrder,
            status := if 0 < currentOrder.length then Status.Open else Status.Closed,
            lastUpdate := some now }) := ht
    obtain ⟨t0, -, rfl⟩ :=
      mem_updateTableDoc st.tables (toString tableId) _ t ht2
    refine ⟨rfl, rfl, ?_, ?_⟩
    · cases currentOrder with
      | nil => simp
      | cons a l => simp
    · intro hnil
      subst hnil
      exact ⟨by simp, rfl⟩

/-- Witness for C7: saving the one-Tea cart on table 3 of `exState`
persists the recomputed total and the `Open` status. -/
theorem claim_C7_save_invariant_witness :
    ({ tableId := 3, status := Status.Open, order := [teaLine],
       total := tableTotal [teaLine], lastUpdate := some exDate } : Table).order =
      [teaLine] :=
  ((claim_C7_save_invariant exState 3 [teaLine] exDate).2 _ (List.Mem.head _)).1

/-- C8 (code-bug evidence): running table initialization against a table
set whose table 3 is `Open` with a one-Tea order and total 20 rewrites
that table's status, order and total to the closed defaults — `setDoc`
with `merge: true` overwrites every supplied field, contrary to the
source's own comment that it avoids overwriting. -/
theorem claim_C8_init_overwrites :
    (exState.tables.lookup "3").map Table.status = some Status.Open ∧
    (exState.tables.lookup "3").map Table.order = some [teaLine] ∧
    (exState.tables.lookup "3").map Table.total = some 20 ∧
    ((initTables exState.tables).lookup "3").map Table.status = some Status.Closed ∧
    ((initTables exState.tables).lookup "3").map Table.order = some [] ∧
    ((initTables exState.tables).lookup "3").map Table.total = some 0 :=
  ⟨rfl, rfl, rfl, rfl, rfl, rfl⟩

/-- Resetting a table document twice is the same as resetting it once. -/
theorem updateTableDoc_idem (tables : List (String × Table)) (key : String)
    (f : Table → Table) (hf : ∀ t, f (f t) = f t) :
    updateTableDoc (updateTableDoc tables key f) key f =
      updateTableDoc tables key f := by
  unfold updateTableDoc
  rw [List.map_map]
  apply List.map_congr_left
  intro kt _
  show (fun kt : String × Table => if kt.1 == key then (kt.1, f kt.2) else kt)
    ((fun kt : String × Table => if kt.1 == key then (kt.1, f kt.2) else kt) kt) = _
  cases hk : (kt.1 == key) with
  | true => simp [hk, hf]
  | false => simp [hk]

/-- C9 as stated fails on the code: from `exState` (no recorded sales,
table 3 open with one Tea), a crash after the sale write followed by a
full checkout retry leaves two sale documents, not one — the code has no
idempotency key, so the retry does record a second sale. -/
theorem claim_C9_counterexample :
    (handleCheckoutApp
        (applyWrites exState ((checkoutWrites 3 [teaLine] 20 exDate).take 1))
        3 [teaLine] 20 exDate2).sales.length = 2 ∧
    ¬ (handleCheckoutApp
        (applyWrites exState ((checkoutWrites 3 [teaLine] 20 exDate).take 1))
        3 [teaLine] 20 exDate2).sales.length ≤ 1 :=
  ⟨rfl, by decide⟩

/-- C9 (amended): after a partial checkout failure in which the sale was
appended but the table reset failed, a full checkout retry for the same
table and order appends a second sale with the same table id, items and
total (there is no idempotency key); repeating the table reset is
idempotent and leaves the table in the same closed state. -/
theorem claim_C9_retry (st : AppState) (tableId : Nat) (orderItems : List OrderLine)
    (total : ℚ) (d1 d2 : JsDate) :
    (handleCheckoutApp (applyWrites st ((checkoutWrites tableId orderItems total d1).take 1))
        tableId orderItems total d2).sales =
      st.sales ++ [mkSale tableId orderItems total d1, mkSale tableId orderItems total d2] ∧
    (mkSale tableId orderItems total d2).items = (mkSale tableId orderItems total d1).items ∧
    (mkSale tableId orderItems total d2).total = (mkSale tableId orderItems total d1).total ∧
    (mkSale tableId orderItems total d2).tableId =
      (mkSale tableId orderItems total d1).tableId ∧
    applyWrite (applyWrite st (WriteOp.resetTable tableId)) (WriteOp.resetTable tableId) =
      applyWrite st (WriteOp.resetTable tableId) := by
  refine ⟨?_, rfl, rfl, rfl, ?_⟩
  · show (st.sales ++ [mkSale tableId orderItems total d1]) ++
        [mkSale tableId orderItems total d2] = _
    rw [List.append_assoc]
    rfl
  · have hidem := updateTableDoc_idem st.tables (toString tableId)
      (fun t => { t with order := [], total := 0, status := Status.Closed })
      (fun t => rfl)
    show ({ applyWrite st (WriteOp.resetTable tableId) with
      tables := updateTableDoc (updateTableDoc st.tables (toString tableId)
        (fun t => { t with order := [], total := 0, status := Status.Closed }))
        (toString tableId)
        (fun t => { t with order := [], total := 0, status := Status.Closed }) } : AppState) = _
    rw [hidem]
    rfl

/-- A `≠` hypothesis turns string `==` into `false`. -/
theorem beq_false_of_ne {a b : String} (h : a ≠ b) : (a == b) = false := by
  simp [h]

/-- Looking up the touched key after `addSale`: an existing row keeps its
label and gains `q`; a fresh row starts at `0 + q`. -/
theorem lookup_addSale_self (data : List (String × RowVal)) (key label : String) (q : ℚ) :
    (addSale data key label q).lookup key =
      some (match data.lookup key with
            | some v => { v with sales := v.sales + q }
            | none => { name := label, sales := 0 + q }) := by
  induction data with
  | nil => simp [addSale, List.lookup_cons]
  | cons p rest ih =>
    obtain ⟨k1, v1⟩ := p
    by_cases h1 : k1 = key
    · subst h1
      simp [addSale, List.lookup_cons]
    · rw [show addSale ((k1, v1) :: rest) key label q =
          (k1, v1) :: addSale rest key label q by
            simp [addSale, beq_false_of_ne h1]]
      rw [List.lookup_cons, List.lookup_cons, beq_false_of_ne (Ne.symm h1)]
      exact ih

/-- Looking up any other key is unaffected by `addSale`. -/
theorem lookup_addSale_ne (data : List (String × RowVal)) (key label : String) (q : ℚ)
    (k : String) (hk : k ≠ key) :
    (addSale data key label q).lookup k = data.lookup k := by
  induction data with
  | nil => simp [addSale, List.lookup_cons, beq_false_of_ne hk]
  | cons p rest ih =>
    obtain ⟨k1, v1⟩ := p
    by_cases h1 : k1 = key
    · have hk1 : k ≠ k1 := fun he => hk (he.trans h1)
      rw [show addSale ((k1, v1) :: rest) key label q =
          (k1, { v1 with sales := v1.sales + q }) :: rest by simp [addSale, h1]]
      rw [List.lookup_cons, List.lookup_cons, beq_false_of_ne hk1]
    · rw [show addSale ((k1, v1) :: rest) key label q =
          (k1, v1) :: addSale rest key label q by
            simp [addSale, beq_false_of_ne h1]]
      rw [List.lookup_cons, List.lookup_cons]
      cases hkk : (k == k1) with
      | true => rfl
      | false => exact ih

/-- `addSale` keeps the key list when the key is present and appends it
otherwise. -/
theorem keys_addSale (data : List (String × RowVal)) (key label : String) (q : ℚ) :
    (addSale data key label q).map Prod.fst =
      if key ∈ data.map Prod.fst then data.map Prod.fst
      else data.map Prod.fst ++ [key] := by
  induction data with
  | nil => simp [addSale]
  | cons p rest ih =>
    obtain ⟨k1, v1⟩ := p
    by_cases h1 : k1 = key
    · subst h1
      simp [addSale]
    · rw [show addSale ((k1, v1) :: rest) key label q =
          (k1, v1) :: addSale rest key label q by
            simp [addSale, beq_false_of_ne h1]]
      rw [List.map_cons, ih, List.map_cons]
      by_cases h2 : key ∈ rest.map Prod.fst
      · rw [if_pos h2, if_pos (by simp [h2])]
      · rw [if_neg h2, if_neg (by simp [Ne.symm h1, h2]), List.cons_append]

/-- `addSale` preserves distinctness of the bucket keys. -/
theorem nodup_keys_addSale (data : List (String × RowVal)) (key label : String) (q : ℚ)
    (h : (data.map Prod.fst).Nodup) :
    ((addSale data key label q).map Prod.fst).Nodup := by
  rw [keys_addSale]
  by_cases hk : key ∈ data.map Prod.fst
  · rw [if_pos hk]
    exact h
  · rw [if_neg hk, List.nodup_append]
    exact ⟨h, by simp, by simp [hk]⟩

/-- `addSale` adds exactly `q` to the total of all accumulated rows. -/
theorem sum_addSale (data : List (String × RowVal)) (key label : String) (q : ℚ) :
    (((addSale data key label q).map Prod.snd).map RowVal.sales).sum =
      ((data.map Prod.snd).map RowVal.sales).sum + q := by
  induction data with
  | nil => simp [addSale]
  | cons p rest ih =>
    obtain ⟨k1, v1⟩ := p
    by_cases h1 : k1 = key
    · subst h1
      simp [addSale]
      ring
    · rw [show addSale ((k1, v1) :: rest) key label q =
          (k1, v1) :: addSale rest key label q by
            simp [addSale, beq_false_of_ne h1]]
      simp only [List.map_cons, List.sum_cons, ih]
      ring

/-- A key is in the association list iff its lookup succeeds. -/
theorem lookup_isSome_iff (l : List (String × RowVal)) (k : String) :
    (l.lookup k).isSome = true ↔ k ∈ l.map Prod.fst := by
  induction l with
  | nil => simp
  | cons p rest ih =>
    obtain ⟨k1, v1⟩ := p
    by_cases h : k = k1
    · subst h
      simp [List.lookup_cons]
    · rw [List.lookup_cons, beq_false_of_ne h]
      simp [h, ih]

/-- With distinct keys, membership determines the lookup. -/
theorem lookup_eq_of_mem_nodup (l : List (String × RowVal)) (k : String) (v : RowVal)
    (h : (l.map Prod.fst).Nodup) (hm : (k, v) ∈ l) : l.lookup k = some v := by
  induction l with
  | nil => cases hm
  | cons p rest ih =>
    obtain ⟨k1, v1⟩ := p
    rw [List.map_cons, List.nodup_cons] at h
    rcases List.mem_cons.mp hm with heq | hmem
    · rw [Prod.mk.injEq] at heq
      obtain ⟨rfl, rfl⟩ := heq
      simp [List.lookup_cons]
    · have hne : k ≠ k1 := by
        intro he
        subst he
        exact h.1 (by simpa using List.mem_map_of_mem Prod.fst hmem)
      rw [List.lookup_cons, beq_false_of_ne hne]
      exact ih h.2 hmem

/-- The accumulated value under key `k` after folding the aggregation
step over a sale list: the starting value (if any) plus the bucket total,
or a fresh row at `0 +` the bucket total when a sale hits `k`. -/
theorem lookup_foldData (rt : ReportType) (today : JsDate) :
    ∀ (salesData : List Sale) (data : List (String × RowVal)) (k : String),
      ((salesData.foldl (aggStep rt today) data).lookup k).map RowVal.sales =
        match data.lookup k with
        | some v => some (v.sales + bucketTotal rt today salesData k)
        | none =>
          if salesData.any (fun s => bucketKey rt (s.timestamp.getD today) == k) then
            some (0 + bucketTotal rt today salesData k)
          else none
  | [], data, k => by
    cases hd : data.lookup k <;> simp [bucketTotal, hd]
  | s :: rest, data, k => by
    rw [List.foldl_cons]
    by_cases hks : bucketKey rt (s.timestamp.getD today) = k
    · subst hks
      rw [lookup_foldData rt today rest (aggStep rt today data s) _]
      have hd' := lookup_addSale_self data (bucketKey rt (s.timestamp.getD today))
        (bucketLabel rt (s.timestamp.getD today)) s.total
      rw [show aggStep rt today data s =
          addSale data (bucketKey rt (s.timestamp.getD today))
            (bucketLabel rt (s.timestamp.getD today)) s.total from rfl, hd']
      have hfilter :
          bucketTotal rt today (s :: rest) (bucketKey rt (s.timestamp.getD today)) =
            s.total + bucketTotal rt today rest (bucketKey rt (s.timestamp.getD today)) := by
        rw [bucketTotal, List.filter_cons_of_pos (by simp), List.map_cons, List.sum_cons,
          bucketTotal]
      cases hd : data.lookup (bucketKey rt (s.timestamp.getD today)) with
      | some v => simp [hd, hfilter, add_assoc]
      | none => simp [hd, hfilter, add_assoc]
    · rw [lookup_foldData rt today rest (aggStep rt today data s) k]
      have hne := lookup_addSale_ne data (bucketKey rt (s.timestamp.getD today))
        (bucketLabel rt (s.timestamp.getD today)) s.total k (fun he => hks he.symm)
      rw [show aggStep rt today data s =
          addSale data (bucketKey rt (s.timestamp.getD today))
            (bucketLabel rt (s.timestamp.getD today)) s.total from rfl, hne]
      have hfilter : bucketTotal rt today (s :: rest) k = bucketTotal rt today rest k := by
        rw [bucketTotal, List.filter_cons_of_neg (by simp [hks]), bucketTotal]
      have hany : ((s :: rest).any (fun x => bucketKey rt (x.timestamp.getD today) == k)) =
          rest.any (fun x => bucketKey rt (x.timestamp.getD today) == k) := by
        simp [hks]
      cases hd : data.lookup k with
      | some v => simp [hd, hfilter]
      | none => simp [hd, hfilter, hany]

/-- Folding the aggregation step preserves distinctness of bucket keys. -/
theorem nodup_keys_foldData (rt : ReportType) (today : JsDate) :
    ∀ (salesData : List Sale) (data : List (String × RowVal)),
      (data.map Prod.fst).Nodup →
      ((salesData.foldl (aggStep rt today) data).map Prod.fst).Nodup
  | [], _, h => h
  | s :: rest, data, h => by
    rw [List.foldl_cons]
    exact nodup_keys_foldData rt today rest _ (nodup_keys_addSale _ _ _ _ h)

/-- Folding the aggregation step adds exactly the sale totals to the
accumulated row sum. -/
theorem sum_foldData (rt : ReportType) (today : JsDate) :
    ∀ (salesData : List Sale) (data : List (String × RowVal)),
      (((salesData.foldl (aggStep rt today) data).map Prod.snd).map RowVal.sales).sum =
        ((data.map Prod.snd).map RowVal.sales).sum + (salesData.map Sale.total).sum
  | [], data => by simp
  | s :: rest, data => by
    rw [List.foldl_cons, sum_foldData rt today rest _]
    rw [show aggStep rt today data s =
        addSale data (bucketKey rt (s.timestamp.getD today))
          (bucketLabel rt (s.timestamp.getD today)) s.total from rfl, sum_addSale]
    simp only [List.map_cons, List.sum_cons]
    ring

/-- A bucket key appears in the accumulated data iff some sale lands in
that bucket. -/
theorem mem_keys_buildData (salesData : List Sale) (rt : ReportType) (today : JsDate)
    (k : String) :
    k ∈ (buildData salesData rt today).map Prod.fst ↔
      ∃ s ∈ salesData, bucketKey rt (s.timestamp.getD today) = k := by
  unfold buildData
  have h := lookup_foldData rt today salesData [] k
  rw [List.lookup_nil] at h
  rw [← lookup_isSome_iff]
  cases hany : salesData.any (fun s => bucketKey rt (s.timestamp.getD today) == k) with
  | true =>
    rw [hany] at h
    simp only [if_true] at h
    constructor
    · intro _
      obtain ⟨s, hs, hpred⟩ := List.any_eq_true.mp hany
      exact ⟨s, hs, by simpa using hpred⟩
    · intro _
      cases hl : (salesData.foldl (aggStep rt today) []).lookup k with
      | some v => simp
      | none =>
        rw [hl] at h
        simp at h
  | false =>
    rw [hany] at h
    simp only [Bool.false_eq_true, if_false] at h
    constructor
    · intro hk
      cases hl : (salesData.foldl (aggStep rt today) []).lookup k with
      | some v =>
        rw [hl] at h
        simp at h
      | none =>
        rw [hl] at hk
        simp at hk
    · rintro ⟨s, hs, hpred⟩
      have hc : salesData.any (fun s => bucketKey rt (s.timestamp.getD today) == k) = true :=
        List.any_eq_true.mpr ⟨s, hs, by simpa using hpred⟩
      rw [hany] at hc
      cases hc

/-- Every accumulated row's sales value is the total of its bucket. -/
theorem row_sales_buildData (salesData : List Sale) (rt : ReportType) (today : JsDate)
    (k : String) (v : RowVal) (hm : (k, v) ∈ buildData salesData rt today) :
    v.sales = bucketTotal rt today salesData k := by
  have hnd : ((buildData salesData rt today).map Prod.fst).Nodup := by
    unfold buildData
    exact nodup_keys_foldData rt today salesData [] (by simp)
  have hl := lookup_eq_of_mem_nodup _ _ _ hnd hm
  have h := lookup_foldData rt today salesData [] k
  rw [List.lookup_nil] at h
  unfold buildData at hl
  rw [hl] at h
  cases hany : salesData.any (fun s => bucketKey rt (s.timestamp.getD today) == k) with
  | true =>
    rw [hany] at h
    simp only [if_true, Option.map_some'] at h
    have h2 := Option.some.inj h
    rw [h2, zero_add]
  | false =>
    rw [hany] at h
    simp at h

/-- C4: the aggregator derives each sale's bucket from its timestamp
(falling back to the current date), produces one row per distinct bucket
key whose sales value is the sum of the totals of that bucket's sales,
and reports `totalSales` as the sum over all rows (equal to the sum of
all sale totals); on the three example sales, Daily mode yields the rows
50, 30, 20 with `totalSales = 100`, and Monthly mode collapses them to
one row of 80 (bucket `2024-01`) and one of 20 (bucket `2024-02`). -/
theorem claim_C4_aggregation (salesData : List Sale) (rt : ReportType) (today : JsDate) :
    ((buildData salesData rt today).map Prod.fst).Nodup ∧
    (∀ k, k ∈ (buildData salesData rt today).map Prod.fst ↔
      ∃ s ∈ salesData, bucketKey rt (s.timestamp.getD today) = k) ∧
    (∀ k v, (k, v) ∈ buildData salesData rt today →
      v.sales = bucketTotal rt today salesData k) ∧
    (∀ s : Sale, s.timestamp = none →
      buildData [s] rt today =
        [(bucketKey rt today, { name := bucketLabel rt today, sales := s.total })]) ∧
    (aggregatedData salesData rt today).Perm ((buildData salesData rt today).map Prod.snd) ∧
    totalSales (aggregatedData salesData rt today) =
      ((aggregatedData salesData rt today).map RowVal.sales).sum ∧
    totalSales (aggregatedData salesData rt today) = (salesData.map Sale.total).sum ∧
    buildData exSales ReportType.Monthly exToday =
      [("2024-01", { name := "Jan 2024", sales := 80 }),
       ("2024-02", { name := "Feb 2024", sales := 20 })] ∧
    aggregatedData exSales ReportType.Daily exToday =
      [{ name := "2024-01-05", sales := 50 }, { name := "2024-01-07", sales := 30 },
       { name := "2024-02-01", sales := 20 }] ∧
    totalSales (aggregatedData exSales ReportType.Daily exToday) = 100 ∧
    ((aggregatedData exSales ReportType.Monthly exToday).map RowVal.sales).Perm [80, 20] := by
  refine ⟨?_, ?_, ?_, ?_, ?_, ?_, ?_, ?_, ?_, ?_, ?_⟩
  · unfold buildData
    exact nodup_keys_foldData rt today salesData [] (by simp)
  · exact mem_keys_buildData salesData rt today
  · intro k v hm
    exact row_sales_buildData salesData rt today k v hm
  · intro s hs
    simp [buildData, aggStep, hs, addSale]
  · unfold aggregatedData
    exact List.mergeSort_perm _ rowLE
  · rw [totalSales, foldl_add_map_sum, zero_add]
  · rw [totalSales, foldl_add_map_sum, zero_add]
    have hperm : (aggregatedData salesData rt today).Perm
        ((buildData salesData rt today).map Prod.snd) := by
      unfold aggregatedData
      exact List.mergeSort_perm _ rowLE
    rw [(hperm.map RowVal.sales).sum_eq]
    unfold buildData
    rw [sum_foldData]
    simp
  · norm_num +decide [buildData, aggStep, exSales, exToday, addSale, bucketKey, bucketLabel,
      isoDate, isoYearMonth, pad2, pad4, monthlyLabel, monthShort, RowVal.mk.injEq]
  · norm_num +decide [aggregatedData, buildData, aggStep, exSales, exToday, addSale,
      bucketKey, bucketLabel, isoDate, isoYearMonth, pad2, pad4, monthlyLabel, monthShort,
      rowLE, List.mergeSort, List.merge, RowVal.mk.injEq]
  · norm_num +decide [totalSales, aggregatedData, buildData, aggStep, exSales, exToday,
      addSale, bucketKey, bucketLabel, isoDate, isoYearMonth, pad2, pad4, monthlyLabel,
      monthShort, rowLE, List.mergeSort, List.merge, RowVal.mk.injEq]
  · have hM : aggregatedData exSales ReportType.Monthly exToday =
        [{ name := "Feb 2024", sales := 20 }, { name := "Jan 2024", sales := 80 }] := by
      norm_num +decide [aggregatedData, buildData, aggStep, exSales, exToday, addSale,
        bucketKey, bucketLabel, isoDate, isoYearMonth, pad2, pad4, monthlyLabel, monthShort,
        rowLE, List.mergeSort, List.merge, RowVal.mk.injEq]
    rw [hM]
    simp only [List.map_cons, List.map_nil]
    exact List.Perm.swap 80 20 []

/-- Witness for C4: the Monthly row under bucket key `2024-01` carries
exactly the bucket's summed total. -/
theorem claim_C4_aggregation_witness :
    ({ name := "Jan 2024", sales := 80 } : RowVal).sales =
      bucketTotal ReportType.Monthly exToday exSales "2024-01" := by
  have h := claim_C4_aggregation exSales ReportType.Monthly exToday
  exact h.2.2.1 "2024-01" { name := "Jan 2024", sales := 80 }
    (by rw [h.2.2.2.2.2.2.2.1]; exact List.Mem.head _)

/-- C5: for every sale list and bucket mode, consecutive report rows have
non-decreasing labels under lexicographic string comparison. -/
theorem claim_C5_sorted_by_label (salesData : List Sale) (rt : ReportType) (today : JsDate) :
    (aggregatedData salesData rt today).Chain' (fun a b => a.name ≤ b.name) := by
  have htrans : ∀ a b c : RowVal, rowLE a b → rowLE b c → rowLE a c := by
    intro a b c hab hbc
    simp only [rowLE, decide_eq_true_eq] at hab hbc ⊢
    exact le_trans hab hbc
  have htotal : ∀ a b : RowVal, rowLE a b || rowLE b a := by
    intro a b
    simp only [rowLE, Bool.or_eq_true, decide_eq_true_eq]
    exact le_total a.name b.name
  have hp := List.sorted_mergeSort htrans htotal
    ((buildData salesData rt today).map Prod.snd)
  have hp2 : (aggregatedData salesData rt today).Pairwise (fun a b => a.name ≤ b.name) := by
    unfold aggregatedData
    exact hp.imp (fun hab => by simpa [rowLE] using hab)
  exact hp2.chain'

end CafePOS
